import Mathlib

/-!
Verification of the project-scanner component of the Qry repository
(`_project-scanner.js`, i.e. `src/unnamed/part_001`, and its sibling
`src/ia-scanner.cjs`).  The scanner walks a directory tree, filters paths
against ignore patterns, renders an ASCII tree, embeds eligible file
contents into a report, and accumulates statistics.

The filesystem is modelled as an inductive tree in which the failure modes
the scanner handles are explicit: a `broken` node makes `fs.stat` fail, an
`unreadableDir` node makes `fs.readdir` fail, and a file whose `content` is
`none` makes `fs.readFile` fail.  JavaScript strings are modelled as Lean
`String`s; `localeCompare` is modelled as lexicographic comparison (the
host string comparison); the `RegExp` produced from a wildcard pattern by
replacing `*` with `.*` is modelled by an unanchored matcher in which `.`
matches any character and every other non-`*` character matches itself.
MD5 hashing is an external library call and is passed in as an abstract
function `md5 : String → String`; no claim depends on hash values.
-/

/-! ## String helpers (models of the JS string primitives used) -/

/-- Model of JS `s.startsWith(pre)`. -/
def strStartsWith (s pre : String) : Bool :=
  pre.data.isPrefixOf s.data

/-- `subOccurs sub t`: `sub` occurs contiguously somewhere in `t`. -/
def subOccurs (sub : List Char) : List Char → Bool
  | [] => sub.isPrefixOf []
  | c :: t2 => sub.isPrefixOf (c :: t2) || subOccurs sub t2

/-- Model of JS `s.includes(sub)`. -/
def strIncludes (s sub : String) : Bool :=
  subOccurs sub.data s.data

/-- Does the pattern contain a `*` wildcard (JS `ignoredPath.includes('*')`)? -/
def patHasStar (p : String) : Bool := p.data.contains '*'

/-- Anchored glob-regex matcher: does the regex obtained from the pattern by
replacing `*` with `.*` match some prefix of `s`?  `*` in the pattern is the
replaced `.*` (any sequence), `.` matches any single character, every other
character matches itself. -/
def gMatch : List Char → List Char → Bool
  | [], _ => true
  | '*' :: ps, s =>
    gMatch ps s || (match s with
      | [] => false
      | _ :: s2 => gMatch ('*' :: ps) s2)
  | _ :: _, [] => false
  | p :: ps, c :: s => (p == '.' || p == c) && gMatch ps s
termination_by p s => (s.length, p.length)

/-- Unanchored search, as JS `new RegExp(pattern).test(s)`: the regex may
match starting at any position of `s`. -/
def gSearch (p : List Char) : List Char → Bool
  | [] => gMatch p []
  | c :: s2 => gMatch p (c :: s2) || gSearch p s2

/-- Model of `new RegExp(ignoredPath.replace(/\*/g, '.*')).test(s)`. -/
def regexTestGlob (pat s : String) : Bool :=
  gSearch pat.data s.data

/-- Model of Node `path.extname` applied to a basename: the substring from
the last `.` on, except that a `.` at position 0 (hidden files) or a missing
`.` yields the empty string. -/
def extnameAux : List Char → Option (List Char)
  | [] => none
  | c :: rest =>
    match extnameAux rest with
    | some e => some e
    | none => if c == '.' then some ('.' :: rest) else none

def extname (name : String) : String :=
  match name.data with
  | [] => ""
  | _ :: rest =>
    match extnameAux rest with
    | some e => ⟨e⟩
    | none => ""

/-- Root-relative forward-slash path of a child entry (what
`path.relative(rootDir, path.join(dir, file)).replace(/\\/g, '/')`
produces during the scan: the parent's relative path, `/`, and the name). -/
def joinRel (rel name : String) : String :=
  if rel == "" then name else rel ++ "/" ++ name

/-! ## Line counting (`#countLines`) -/

/-- Model of JS `content.split('\n')` for the single-character separator. -/
def splitNl : List Char → List (List Char)
  | [] => [[]]
  | c :: cs =>
    if c == '\n' then [] :: splitNl cs
    else
      match splitNl cs with
      | s :: ss => (c :: s) :: ss
      | [] => [[c]]

/-- `#countLines(content)`: `content.split('\n').length`. -/
def countLines (content : String) : Nat :=
  (splitNl content.data).length

/-! ## `formatFileSize` -/

/-- The unit sequence of `formatFileSize`. -/
def sizeUnits : List String := ["B", "KB", "MB", "GB"]

/-- The `while (size >= 1024 && unitIndex < units.length - 1)` loop.  The
running JS number is exactly `bytes / den` (division by 1024 is exact in
binary floating point), so the loop state is kept as the exact denominator
together with the unit index. -/
def fmtLoop (bytes den unitIndex : Nat) : Nat × Nat :=
  if h : 1024 * den ≤ bytes ∧ unitIndex < 3 then
    fmtLoop bytes (den * 1024) (unitIndex + 1)
  else (den, unitIndex)
termination_by 3 - unitIndex

/-- JS `x.toFixed(2)` for the exact non-negative rational `num / den`:
round half away from zero to two decimals and render with exactly two
decimal digits. -/
def toFixed2 (num den : Nat) : String :=
  let n := (200 * num + den) / (2 * den)
  Nat.repr (n / 100) ++ "." ++
    (if n % 100 < 10 then "0" ++ Nat.repr (n % 100) else Nat.repr (n % 100))

/-- `formatFileSize(bytes)`. -/
def formatFileSize (bytes : Nat) : String :=
  let r := fmtLoop bytes 1 0
  toFixed2 bytes r.1 ++ " " ++ sizeUnits.getD r.2 ""

/-! ## Configuration and statistics -/

structure ScanConfig where
  projectName : String
  ignoredPaths : List String
  acceptedExtensions : List String
  maxFileSize : Nat
  includeHashes : Bool
deriving Repr

/-- The output-file name `_${projectName}Overview.txt`. -/
def overviewName (cfg : ScanConfig) : String :=
  "_" ++ cfg.projectName ++ "Overview.txt"

/-- The scanner-script / output-file names skipped unconditionally inside
the traversals (`file === '-generate-overview.cjs' || file === ...`). -/
def isSkipName (cfg : ScanConfig) (name : String) : Bool :=
  name == "-generate-overview.cjs" || name == overviewName cfg

/-- `this.stats` of the scanner.  `fileTypes` (a JS `Map`) is an ordered
association list; `errors` and `warnings` are kept in push order. -/
structure Stats where
  filesProcessed : Nat
  skippedFiles : Nat
  totalSize : Nat
  totalLines : Nat
  errors : List String
  warnings : List String
  fileTypes : List (String × Nat)
  largestFiles : List (String × Nat)
deriving Repr, DecidableEq

/-- The freshly constructed statistics object. -/
def initStats : Stats :=
  { filesProcessed := 0, skippedFiles := 0, totalSize := 0, totalLines := 0,
    errors := [], warnings := [], fileTypes := [], largestFiles := [] }

/-! ## Filesystem model -/

/-- A filesystem node.  `broken` fails `fs.stat`; `unreadableDir` passes
`fs.stat` (as a directory) but fails `fs.readdir`; a file with
`content = none` passes `fs.stat` but fails `fs.readFile`. -/
inductive FSNode where
  | file (size : Nat) (content : Option String)
  | dir (children : List (String × FSNode))
  | unreadableDir
  | broken
deriving Repr

/-! ## Path filter (`shouldProcessContent`) -/

/-- The `isIgnored` disjunction inside `shouldProcessContent`: some ignored
pattern matches the relative path (wildcard patterns through the glob
regex; plain patterns by equality, directory-prefix, contained directory
segment, or basename equality). -/
def contentIgnored (patterns : List String) (relativePath filename : String) : Bool :=
  patterns.any fun ignoredPath =>
    if patHasStar ignoredPath then
      regexTestGlob ignoredPath relativePath
    else
      relativePath == ignoredPath ||
      strStartsWith relativePath (ignoredPath ++ "/") ||
      strIncludes relativePath ("/" ++ ignoredPath ++ "/") ||
      filename == ignoredPath

/-- The pure decision of `shouldProcessContent` (its only side effect, the
oversize warning, is handled by the stateful wrapper below).  The stat
inside `shouldProcessContent` always succeeds here because the traversal
only calls it on entries whose stat already succeeded. -/
def eligiblePure (cfg : ScanConfig) (size : Nat) (relativePath filename : String) : Bool :=
  if cfg.maxFileSize < size then false
  else
    !contentIgnored cfg.ignoredPaths relativePath filename &&
    !isSkipName cfg filename &&
    cfg.acceptedExtensions.contains (extname filename).toLower &&
    !strStartsWith filename "."

/-- `shouldProcessContent(filePath, rootDir)`: returns the decision and the
statistics (a `File too large` warning is pushed for oversized files). -/
def shouldProcessContent (cfg : ScanConfig) (size : Nat) (relativePath filename : String)
    (st : Stats) : Bool × Stats :=
  if cfg.maxFileSize < size then
    (false, { st with warnings := st.warnings ++ ["File too large: " ++ relativePath] })
  else
    (!contentIgnored cfg.ignoredPaths relativePath filename &&
     !isSkipName cfg filename &&
     cfg.acceptedExtensions.contains (extname filename).toLower &&
     !strStartsWith filename ".", st)

/-! ## Largest-files shortlist and file-type map -/

/-- The comparator `(a, b) => b.size - a.size` as a relation: `a` may come
before `b` when the comparator is `≤ 0`, i.e. `b.size ≤ a.size`. -/
def sizeGE (a b : String × Nat) : Prop := b.2 ≤ a.2

instance : DecidableRel sizeGE := fun a b => inferInstanceAs (Decidable (b.2 ≤ a.2))

instance : IsTotal (String × Nat) sizeGE :=
  ⟨fun a b => (Nat.le_total b.2 a.2).imp id id⟩

instance : IsTrans (String × Nat) sizeGE :=
  ⟨fun _ _ _ h1 h2 => Nat.le_trans h2 h1⟩

/-- The per-file largest-files update: push, sort descending by size,
truncate to 10 entries. -/
def insertLargest (l : List (String × Nat)) (relativePath : String) (size : Nat) :
    List (String × Nat) :=
  (List.insertionSort sizeGE (l ++ [(relativePath, size)])).take 10

/-- `fileTypes.set(t, (fileTypes.get(t) || 0) + 1)` on the association-list
model of the JS `Map` (insertion order preserved). -/
def bumpType (m : List (String × Nat)) (t : String) : List (String × Nat) :=
  if m.any (fun p => p.1 == t) then
    m.map fun p => if p.1 == t then (p.1, p.2 + 1) else p
  else m ++ [(t, 1)]

/-- `extension.slice(1).toUpperCase() || 'NONE'`. -/
def fileTypeOf (filename : String) : String :=
  let t := ((extname filename).toLower.drop 1).toUpper
  if t == "" then "NONE" else t

/-! ## File processing (`processFiles`) -/

/-- Processing of a single non-directory, non-skip-name entry inside the
`processFiles` loop: decide eligibility, then read, hash, count lines,
append the report section and update statistics — or record the skip.  A
failing `fs.readFile` (`content = none`) is caught by the surrounding
per-entry `try`/`catch` and pushed onto `errors`. -/
def processFileEntry (cfg : ScanConfig) (md5 : String → String)
    (relativePath filename : String) (size : Nat) (content : Option String)
    (st : Stats) : Stats × String :=
  let r := shouldProcessContent cfg size relativePath filename st
  if r.1 then
    match content with
    | none =>
      ({ r.2 with errors := r.2.errors ++ ["Error processing " ++ relativePath] }, "")
    | some text =>
      let hash : Option String := if cfg.includeHashes then some (md5 text) else none
      let lines := countLines text
      let fileType := fileTypeOf filename
      let sep :=
        "\n" ++ String.mk (List.replicate 80 '=') ++ "\n" ++
        "FILE: " ++ relativePath ++ "\n" ++
        "Type: " ++ fileType ++ " | Size: " ++ formatFileSize size ++
          " | Lines: " ++ Nat.repr lines ++ "\n" ++
        (match hash with
          | some h => "MD5: " ++ h ++ "\n"
          | none => "") ++
        String.mk (List.replicate 80 '=') ++ "\n"
      ({ r.2 with
          totalSize := r.2.totalSize + size,
          totalLines := r.2.totalLines + lines,
          fileTypes := bumpType r.2.fileTypes fileType,
          largestFiles := insertLargest r.2.largestFiles relativePath size,
          filesProcessed := r.2.filesProcessed + 1 },
        sep ++ text ++ "\n")
  else ({ r.2 with skippedFiles := r.2.skippedFiles + 1 }, "")

/-- The `processDirectory` inner loop of `processFiles`: iterate over the
entries of a directory listing.  Per entry: `fs.stat` first (a `broken`
entry throws and is caught into `errors`), then the scanner/output names
are skipped, directories are descended into (`unreadableDir` fails its
`readdir` and is caught into `errors`), and plain files go through
`shouldProcessContent`/`processFileEntry`.  Returns the final statistics
and the text appended to the output file. -/
def processChildren (cfg : ScanConfig) (md5 : String → String) (rel : String) :
    List (String × FSNode) → Stats → Stats × String
  | [], st => (st, "")
  | (name, node) :: rest, st =>
    let r1 : Stats × String :=
      match node with
      | .broken =>
        ({ st with errors := st.errors ++ ["Error processing " ++ joinRel rel name] }, "")
      | .dir cs =>
        if isSkipName cfg name then (st, "")
        else processChildren cfg md5 (joinRel rel name) cs st
      | .unreadableDir =>
        if isSkipName cfg name then (st, "")
        else ({ st with
            errors := st.errors ++ ["Error reading directory " ++ joinRel rel name] }, "")
      | .file size content =>
        if isSkipName cfg name then (st, "")
        else processFileEntry cfg md5 (joinRel rel name) name size content st
    let r2 := processChildren cfg md5 rel rest r1.1
    (r2.1, r1.2 ++ r2.2)

/-- `processFiles(dir, rootDir, outputFile)` started at the scan root. -/
def processFiles (cfg : ScanConfig) (md5 : String → String) (root : FSNode)
    (st : Stats) : Stats × String :=
  match root with
  | .dir cs => processChildren cfg md5 "" cs st
  | _ => ({ st with errors := st.errors ++ ["Error reading directory ."] }, "")

/-! ## Directory walker (`generateDirectoryStructure`) -/

/-- One entry of the walker's `validFiles` array: name, directory flag,
stat size and the underlying node. -/
structure DirEntry where
  name : String
  isDirectory : Bool
  size : Nat
  node : FSNode
deriving Repr

/-- The walker's per-entry ignore test (`generateDirectoryStructure` of
`_project-scanner.js`): wildcard patterns are tested against the bare name
and the relative path; plain patterns match by name equality or by
directory-prefix of the relative path. -/
def walkerIgnored (patterns : List String) (file relativePath : String) : Bool :=
  patterns.any fun ignoredPath =>
    if patHasStar ignoredPath then
      regexTestGlob ignoredPath file || regexTestGlob ignoredPath relativePath
    else
      file == ignoredPath || strStartsWith relativePath (ignoredPath ++ "/")

/-- The `validFiles` collection loop of `generateDirectoryStructure`:
skip-names and ignored entries are dropped; an entry whose `fs.stat` fails
is dropped with only a console log (no statistics change); surviving
entries record name, directory flag and size.  Directory stat sizes are
irrelevant downstream and modelled as 0. -/
def validFiles (cfg : ScanConfig) (rel : String) : List (String × FSNode) → List DirEntry
  | [] => []
  | (name, node) :: rest =>
    if isSkipName cfg name then validFiles cfg rel rest
    else if walkerIgnored cfg.ignoredPaths name (joinRel rel name) then validFiles cfg rel rest
    else
      match node with
      | .broken => validFiles cfg rel rest
      | .file size content => ⟨name, false, size, .file size content⟩ :: validFiles cfg rel rest
      | .dir cs => ⟨name, true, 0, .dir cs⟩ :: validFiles cfg rel rest
      | .unreadableDir => ⟨name, true, 0, .unreadableDir⟩ :: validFiles cfg rel rest

/-- Model of JS `a.localeCompare(b)` under the host's lexicographic
case-sensitive string comparison. -/
def localeCompare (a b : String) : Int :=
  if a < b then -1 else if b < a then 1 else 0

/-- The walker's sort comparator
`(a, b) => (b.isDirectory - a.isDirectory) || a.name.localeCompare(b.name)`. -/
def entCmp (a b : DirEntry) : Int :=
  let d : Int := (if b.isDirectory then 1 else 0) - (if a.isDirectory then 1 else 0)
  if d = 0 then localeCompare a.name b.name else d

/-- `a` may be placed before `b` by the sort: comparator value `≤ 0`. -/
def entLE (a b : DirEntry) : Prop := entCmp a b ≤ 0

instance : DecidableRel entLE := fun a b => inferInstanceAs (Decidable (entCmp a b ≤ 0))

/-- `validFiles.sort(...)`: sort with the walker comparator. -/
def sortEntries (l : List DirEntry) : List DirEntry := List.insertionSort entLE l

/-! Termination measures for the walker recursion: the walker recurses into
children lists obtained by filtering and sorting, so the decrease is proved
against the summed node sizes. -/

mutual
def fsWeight : FSNode → Nat
  | .file _ _ => 1
  | .unreadableDir => 1
  | .broken => 1
  | .dir cs => 1 + pairsWeight cs

def pairsWeight : List (String × FSNode) → Nat
  | [] => 0
  | (_, nd) :: rest => 1 + fsWeight nd + pairsWeight rest
end

def nodeWeight (cs : List (String × FSNode)) : Nat :=
  (cs.map fun p => fsWeight p.2).sum

def entriesSize (l : List DirEntry) : Nat :=
  (l.map fun e => fsWeight e.node).sum

theorem nodeWeight_le_pairsWeight (cs : List (String × FSNode)) :
    nodeWeight cs ≤ pairsWeight cs := by
  induction cs with
  | nil => simp [nodeWeight, pairsWeight]
  | cons p rest ih =>
    obtain ⟨n, nd⟩ := p
    rw [pairsWeight]
    simp only [nodeWeight, List.map_cons, List.sum_cons] at *
    omega

theorem entriesSize_validFiles_le (cfg : ScanConfig) (rel : String)
    (cs : List (String × FSNode)) :
    entriesSize (validFiles cfg rel cs) ≤ nodeWeight cs := by
  induction cs with
  | nil => simp [validFiles, entriesSize, nodeWeight]
  | cons p rest ih =>
    obtain ⟨n, nd⟩ := p
    rw [validFiles.eq_def]
    simp only [nodeWeight, List.map_cons, List.sum_cons] at *
    split
    · omega
    · split
      · omega
      · cases nd <;> simp only [entriesSize, List.map_cons, List.sum_cons] at * <;> omega

theorem entriesSize_sortEntries (l : List DirEntry) :
    entriesSize (sortEntries l) = entriesSize l := by
  unfold entriesSize sortEntries
  exact List.Perm.sum_eq (List.Perm.map _ (List.perm_insertionSort entLE l))

theorem fsWeight_pos (n : FSNode) : 0 < fsWeight n := by
  cases n <;> rw [fsWeight] <;> omega

/-- The tree line rendered for one entry: the box-drawing prefix built
from the ancestor last-sibling flags, the branch glyph, the name, and a
trailing `/` for directories or a size suffix for files under 1 MiB. -/
def entryLine (pfxs : List Bool) (isLastItem : Bool) (e : DirEntry) : String :=
  String.join (pfxs.map fun isParentLast => if isParentLast then "    " else "│   ") ++
  (if isLastItem then "└── " else "├── ") ++ e.name ++
  (if e.isDirectory then "/"
   else if e.size < 1024 * 1024 then " (" ++ formatFileSize e.size ++ ")"
   else "") ++ "\n"

/-- The rendering loop of `generateDirectoryStructure` over the sorted,
filtered entries of one directory level: emit each entry's line and
recurse depth-first into subdirectories, where an unreadable
subdirectory pushes a read error and contributes an empty subtree. -/
def renderEntries (cfg : ScanConfig) :
    String → List Bool → List DirEntry → Stats → String × Stats
  | _, _, [], st => ("", st)
  | rel, pfxs, e :: rest, st =>
    let r1 : String × Stats :=
      if e.isDirectory then
        match h : e.node with
        | .dir cs =>
          renderEntries cfg (joinRel rel e.name) (pfxs ++ [rest.isEmpty])
            (sortEntries (validFiles cfg (joinRel rel e.name) cs)) st
        | _ => ("", { st with
            errors := st.errors ++ ["Error reading directory " ++ joinRel rel e.name] })
      else ("", st)
    let r2 := renderEntries cfg rel pfxs rest r1.2
    (entryLine pfxs rest.isEmpty e ++ r1.1 ++ r2.1, r2.2)
termination_by rel pfxs l st => entriesSize l
decreasing_by
  · have h1 := entriesSize_sortEntries (validFiles cfg (joinRel rel e.name) cs)
    have h2 := entriesSize_validFiles_le cfg (joinRel rel e.name) cs
    have h3 := nodeWeight_le_pairsWeight cs
    have h5 : fsWeight (FSNode.dir cs) = 1 + pairsWeight cs := by rw [fsWeight]
    simp only [entriesSize, List.map_cons, List.sum_cons, h]
    simp only [entriesSize] at h1 h2
    omega
  · have h4 := fsWeight_pos e.node
    simp only [entriesSize, List.map_cons, List.sum_cons]
    omega

/-- `generateDirectoryStructure(rootDir, rootDir)`: render the tree below
the root; a failing `readdir` at the root itself is caught into `errors`
and yields an empty structure. -/
def generateDirectoryStructure (cfg : ScanConfig) (root : FSNode) (st : Stats) :
    String × Stats :=
  match root with
  | .dir cs => renderEntries cfg "" [] (sortEntries (validFiles cfg "" cs)) st
  | _ => ("", { st with errors := st.errors ++ ["Error reading directory ."] })

/-! ## Output-file cleanup (`generateOverview` step 1) -/

/-- `ia-scanner.cjs`:
`fs.unlink(outputFile).catch(err => { if (err.code !== 'ENOENT') throw err })`.
Input: the error code of the unlink call (`none` = deletion succeeded);
output: the error propagated to the caller (`none` = run continues). -/
def unlinkCleanupIa (unlinkError : Option String) : Option String :=
  match unlinkError with
  | none => none
  | some code => if code == "ENOENT" then none else some code

/-- `_project-scanner.js` (src/unnamed/part_001):
`fs.unlink(this.config.outputFile).catch(() => {})`. -/
def unlinkCleanupProj (unlinkError : Option String) : Option String :=
  match unlinkError with
  | none => none
  | some _ => none

/-! ## Claim-side measures -/

/-- The number of entries encountered by the `processFiles` traversal whose
initial `fs.stat` succeeds and which are not directories (the measure
named by the spec's counting invariant). -/
def statOkNonDirCount (cfg : ScanConfig) : List (String × FSNode) → Nat
  | [] => 0
  | (name, node) :: rest =>
    (match node with
      | .broken => 0
      | .file _ _ => 1
      | .unreadableDir => 0
      | .dir cs => if isSkipName cfg name then 0 else statOkNonDirCount cfg cs)
    + statOkNonDirCount cfg rest

/-- The number of entries the `processFiles` traversal actually settles as
processed-or-skipped: stat succeeds, not a directory, not a skip-name, and
not an eligible file whose content read fails. -/
def settledFileCount (cfg : ScanConfig) (rel : String) : List (String × FSNode) → Nat
  | [] => 0
  | (name, node) :: rest =>
    (match node with
      | .broken => 0
      | .unreadableDir => 0
      | .file size content =>
        if isSkipName cfg name then 0
        else if eligiblePure cfg size (joinRel rel name) name && content.isNone then 0
        else 1
      | .dir cs => if isSkipName cfg name then 0 else settledFileCount cfg (joinRel rel name) cs)
    + settledFileCount cfg rel rest

/-- The unit index described by the spec's formatting rule: the number of
divisions by 1024 performed while the value stays at least 1024 and a
larger unit remains. -/
def unitIdx (bytes : Nat) : Nat :=
  if 1024 ^ 3 ≤ bytes then 3
  else if 1024 ^ 2 ≤ bytes then 2
  else if 1024 ≤ bytes then 1
  else 0

/-- The invariant claimed for the largest-files shortlist: at most ten
entries, sorted descending by size. -/
def largestInv (l : List (String × Nat)) : Prop :=
  l.length ≤ 10 ∧ List.Pairwise (fun a b => b.2 ≤ a.2) l

/-! ## Theorems -/

theorem splitNl_ne_nil (l : List Char) : splitNl l ≠ [] := by
  cases l with
  | nil => simp [splitNl]
  | cons c cs =>
    rw [splitNl]
    split
    · simp
    · split <;> simp

theorem splitNl_length (l : List Char) : (splitNl l).length = l.count '\n' + 1 := by
  induction l with
  | nil => simp [splitNl]
  | cons c cs ih =>
    rw [splitNl]
    by_cases hc : c = '\n'
    · simp [hc, List.count_cons, ih]
    · have hcb : (c == '\n') = false := by simpa using hc
      rw [if_neg (by simp [hcb])]
      cases h : splitNl cs with
      | nil => exact absurd h (splitNl_ne_nil cs)
      | cons s ss =>
        have := ih
        rw [h] at this
        simp only [List.length_cons] at this ⊢
        simp [List.count_cons, hc]
        omega

/-- C4: the computed line count of a text equals the number of
newline-delimited segments, i.e. one more than the number of `'\n'`
characters — so a file not ending in a newline still counts its final
partial line, and the empty string yields a line count of 1. -/
theorem countLines_spec :
    (∀ content : String, countLines content = content.data.count '\n' + 1) ∧
    countLines "" = 1 := by
  refine ⟨fun content => ?_, ?_⟩
  · exact splitNl_length content.data
  · rfl

/-- C1: `shouldProcessContent` treats a path as ignored exactly when some
configured pattern matches it: wildcard patterns through the
star-to-`.*` regex against the relative path, plain patterns by exact
equality, directory-prefix, contained directory segment, or basename
equality. -/
theorem contentIgnored_spec (patterns : List String) (relativePath filename : String) :
    contentIgnored patterns relativePath filename = true ↔
      ∃ p ∈ patterns,
        if patHasStar p = true then
          regexTestGlob p relativePath = true
        else
          relativePath = p ∨ strStartsWith relativePath (p ++ "/") = true ∨
          strIncludes relativePath ("/" ++ p ++ "/") = true ∨ filename = p := by
  unfold contentIgnored
  rw [List.any_eq_true]
  constructor
  · rintro ⟨p, hp, hm⟩
    refine ⟨p, hp, ?_⟩
    by_cases hs : patHasStar p
    · simpa [hs] using hm
    · simp only [hs, Bool.false_eq_true, if_false] at hm ⊢
      simp only [Bool.or_eq_true, beq_iff_eq] at hm
      tauto
  · rintro ⟨p, hp, hm⟩
    refine ⟨p, hp, ?_⟩
    by_cases hs : patHasStar p
    · simpa [hs] using hm
    · simp only [hs, Bool.false_eq_true, if_false] at hm ⊢
      simp only [Bool.or_eq_true, beq_iff_eq]
      tauto

/-- C7 counterexample: in `_project-scanner.js` the output-file deletion
swallows a non-missing-file error (`EPERM`) instead of propagating it. -/
theorem unlinkCleanup_counterexample :
    unlinkCleanupProj (some "EPERM") = none ∧ ("EPERM" : String) ≠ "ENOENT" := by
  exact ⟨rfl, by decide⟩

/-- C7 amended: in `ia-scanner.cjs` a missing-file (`ENOENT`) deletion
error is swallowed and every other deletion error propagates to the
caller, while in `_project-scanner.js` every deletion error is swallowed. -/
theorem unlinkCleanup_spec :
    (∀ code : String,
      unlinkCleanupIa (some code) = if code = "ENOENT" then none else some code) ∧
    unlinkCleanupIa none = none ∧
    (∀ r : Option String, unlinkCleanupProj r = none) := by
  refine ⟨fun code => ?_, rfl, fun r => ?_⟩
  · unfold unlinkCleanupIa
    by_cases h : code = "ENOENT" <;> simp [h]
  · cases r <;> rfl

theorem fmtLoop_eq (bytes : Nat) :
    fmtLoop bytes 1 0 = (1024 ^ unitIdx bytes, unitIdx bytes) := by
  unfold unitIdx
  by_cases h1 : 1024 ≤ bytes
  · by_cases h2 : 1024 ^ 2 ≤ bytes
    · by_cases h3 : 1024 ^ 3 ≤ bytes
      · rw [if_pos h3]
        rw [fmtLoop, dif_pos ⟨by omega, by omega⟩]
        rw [fmtLoop, dif_pos ⟨by simpa [pow_succ] using h2, by omega⟩]
        rw [fmtLoop, dif_pos ⟨by simpa [pow_succ, Nat.mul_comm] using h3, by omega⟩]
        rw [fmtLoop, dif_neg (by omega)]
        norm_num
      · rw [if_neg h3, if_pos h2]
        rw [fmtLoop, dif_pos ⟨by omega, by omega⟩]
        rw [fmtLoop, dif_pos ⟨by simpa [pow_succ] using h2, by omega⟩]
        rw [fmtLoop, dif_neg (by
          rintro ⟨hc, -⟩
          exact h3 (by simpa [pow_succ, Nat.mul_comm] using hc))]
        norm_num
    · have h3 : ¬ 1024 ^ 3 ≤ bytes := fun hc =>
        h2 (le_trans (by norm_num) hc)
      rw [if_neg h3, if_neg h2, if_pos h1]
      rw [fmtLoop, dif_pos ⟨by omega, by omega⟩]
      rw [fmtLoop, dif_neg (by
        rintro ⟨hc, -⟩
        exact h2 (by simpa [pow_succ] using hc))]
      norm_num
  · have h2 : ¬ 1024 ^ 2 ≤ bytes := fun hc =>
      h1 (le_trans (by norm_num) hc)
    have h3 : ¬ 1024 ^ 3 ≤ bytes := fun hc =>
      h1 (le_trans (by norm_num) hc)
    rw [if_neg h3, if_neg h2, if_neg h1]
    rw [fmtLoop, dif_neg (by omega)]
    norm_num

/-- C6: `formatFileSize` divides by 1024 while the value is at least 1024
and a larger unit remains in B, KB, MB, GB, then renders the exact value
with two decimal places (round half up) and the chosen unit; in
particular `formatFileSize 1500 = "1.46 KB"`. -/
theorem formatFileSize_spec :
    (∀ bytes : Nat, formatFileSize bytes =
      toFixed2 bytes (1024 ^ unitIdx bytes) ++ " " ++ sizeUnits.getD (unitIdx bytes) "") ∧
    formatFileSize 1500 = "1.46 KB" := by
  have hmain : ∀ bytes : Nat, formatFileSize bytes =
      toFixed2 bytes (1024 ^ unitIdx bytes) ++ " " ++ sizeUnits.getD (unitIdx bytes) "" := by
    intro bytes
    unfold formatFileSize
    rw [fmtLoop_eq]
  refine ⟨hmain, ?_⟩
  rw [hmain 1500]
  have hu : unitIdx 1500 = 1 := by norm_num [unitIdx]
  rw [hu]
  decide

theorem localeCompare_nonpos (a b : String) : localeCompare a b ≤ 0 ↔ a ≤ b := by
  unfold localeCompare
  rcases lt_trichotomy a b with h | h | h
  · rw [if_pos h]
    simp [h.le]
  · subst h
    simp
  · rw [if_neg (fun h2 => absurd h (not_lt.mpr h2.le)), if_pos h]
    simp [not_le.mpr h]

theorem entLE_iff (a b : DirEntry) :
    entLE a b ↔ (a.isDirectory = true ∧ b.isDirectory = false) ∨
      (a.isDirectory = b.isDirectory ∧ a.name ≤ b.name) := by
  simp only [entLE, entCmp]
  cases ha : a.isDirectory <;> cases hb : b.isDirectory <;>
    simp [localeCompare_nonpos]

instance : IsTotal DirEntry entLE := by
  constructor
  intro a b
  rw [entLE_iff, entLE_iff]
  cases ha : a.isDirectory <;> cases hb : b.isDirectory <;> simp_all [le_total]

instance : IsTrans DirEntry entLE := by
  constructor
  intro a b c hab hbc
  rw [entLE_iff] at *
  cases ha : a.isDirectory <;> cases hb : b.isDirectory <;> cases hc : c.isDirectory <;>
    simp_all <;> exact le_trans hab hbc

/-- C9: at each directory level the walker sorts the surviving entries (a
permutation of the filtered listing) so that every directory precedes
every file and, within each of the two groups, names are in the host's
case-sensitive lexical order. -/
theorem sortEntries_spec (cfg : ScanConfig) (rel : String)
    (cs : List (String × FSNode)) :
    List.Perm (sortEntries (validFiles cfg rel cs)) (validFiles cfg rel cs) ∧
    List.Pairwise (fun a b => (a.isDirectory = true ∧ b.isDirectory = false) ∨
        (a.isDirectory = b.isDirectory ∧ a.name ≤ b.name))
      (sortEntries (validFiles cfg rel cs)) := by
  refine ⟨List.perm_insertionSort entLE _, ?_⟩
  have h := List.sorted_insertionSort entLE (validFiles cfg rel cs)
  exact List.Pairwise.imp (fun hab => (entLE_iff _ _).mp hab) h

theorem insertLargest_inv (l : List (String × Nat)) (relativePath : String) (size : Nat) :
    largestInv (insertLargest l relativePath size) := by
  constructor
  · exact List.length_take_le 10 _
  · have hsorted := List.sorted_insertionSort sizeGE (l ++ [(relativePath, size)])
    exact List.Pairwise.sublist (List.take_sublist 10 _) hsorted

theorem processFileEntry_largest (cfg : ScanConfig) (md5 : String → String)
    (relativePath filename : String) (size : Nat) (content : Option String) (st : Stats) :
    (processFileEntry cfg md5 relativePath filename size content st).1.largestFiles =
      insertLargest st.largestFiles relativePath size ∨
    (processFileEntry cfg md5 relativePath filename size content st).1.largestFiles =
      st.largestFiles := by
  unfold processFileEntry shouldProcessContent
  by_cases hbig : cfg.maxFileSize < size
  · simp [hbig]
  · simp only [hbig, if_false]
    split
    · cases content <;> simp
    · simp

theorem processChildren_largest_inv (cfg : ScanConfig) (md5 : String → String)
    (rel : String) (l : List (String × FSNode)) (st : Stats) :
    largestInv st.largestFiles →
    largestInv ((processChildren cfg md5 rel l st).1.largestFiles) := by
  induction rel, l, st using processChildren.induct cfg md5 with
  | case1 rel st =>
    intro h
    simpa [processChildren] using h
  | case2 rel name node rest st r1 ihdir ihrest =>
    intro h
    rw [processChildren.eq_def]
    dsimp only
    refine ihrest ?_
    unfold_let r1
    cases node with
    | broken => simpa using h
    | unreadableDir =>
      by_cases hskip : isSkipName cfg name
      · simpa [hskip] using h
      · simpa [hskip] using h
    | dir cs =>
      by_cases hskip : isSkipName cfg name
      · simpa [hskip] using h
      · simpa [hskip] using ihdir h
    | file size content =>
      by_cases hskip : isSkipName cfg name
      · simpa [hskip] using h
      · simp only [hskip, Bool.false_eq_true, dite_false]
        rcases processFileEntry_largest cfg md5 (joinRel rel name) name size content st
          with heq | heq
        · rw [heq]
          exact insertLargest_inv _ _ _
        · rw [heq]
          exact h

/-- C3: every largest-files insertion step (push, sort descending by
size, truncate to 10) yields a list of length at most 10 sorted in
descending size order, and consequently the statistics of a full
`processFiles` run started from fresh statistics satisfy the same
invariant. -/
theorem largestFiles_spec :
    (∀ (l : List (String × Nat)) (relativePath : String) (size : Nat),
      (insertLargest l relativePath size).length ≤ 10 ∧
      List.Pairwise (fun a b => b.2 ≤ a.2) (insertLargest l relativePath size)) ∧
    (∀ (cfg : ScanConfig) (md5 : String → String) (root : FSNode),
      ((processFiles cfg md5 root initStats).1.largestFiles).length ≤ 10 ∧
      List.Pairwise (fun a b => b.2 ≤ a.2)
        ((processFiles cfg md5 root initStats).1.largestFiles)) := by
  constructor
  · intro l relativePath size
    exact insertLargest_inv l relativePath size
  · intro cfg md5 root
    have hinit : largestInv initStats.largestFiles := ⟨by simp [initStats], by simp [initStats]⟩
    cases root with
    | dir cs => exact processChildren_largest_inv cfg md5 "" cs initStats hinit
    | file size content => simpa [processFiles, initStats] using hinit
    | unreadableDir => simpa [processFiles, initStats] using hinit
    | broken => simpa [processFiles, initStats] using hinit

/-- All statistics fields other than `errors` agree. -/
def sameExceptErrors (a b : Stats) : Prop :=
  a.filesProcessed = b.filesProcessed ∧ a.skippedFiles = b.skippedFiles ∧
  a.totalSize = b.totalSize ∧ a.totalLines = b.totalLines ∧
  a.warnings = b.warnings ∧ a.fileTypes = b.fileTypes ∧ a.largestFiles = b.largestFiles

theorem sameExceptErrors_refl (a : Stats) : sameExceptErrors a a := by
  simp [sameExceptErrors]

theorem sameExceptErrors_trans {a b c : Stats} :
    sameExceptErrors a b → sameExceptErrors b c → sameExceptErrors a c := by
  intro h1 h2
  obtain ⟨a1, a2, a3, a4, a5, a6, a7⟩ := h1
  obtain ⟨b1, b2, b3, b4, b5, b6, b7⟩ := h2
  exact ⟨a1.trans b1, a2.trans b2, a3.trans b3, a4.trans b4,
    a5.trans b5, a6.trans b6, a7.trans b7⟩

theorem renderEntries_frame (cfg : ScanConfig) (rel : String) (pfxs : List Bool)
    (l : List DirEntry) (st : Stats) :
    sameExceptErrors (renderEntries cfg rel pfxs l st).2 st := by
  induction rel, pfxs, l, st using renderEntries.induct cfg with
  | case1 x x1 st => simp [renderEntries, sameExceptErrors]
  | case2 rel pfxs e rest st r1 ihdir ihrest =>
    rw [renderEntries.eq_def]
    dsimp only
    have h1 : sameExceptErrors r1.2 st := by
      unfold_let r1
      by_cases hd : e.isDirectory
      · simp only [hd, dite_true]
        cases hn : e.node with
        | dir cs => exact ihdir cs hn
        | file size content => simp [sameExceptErrors]
        | unreadableDir => simp [sameExceptErrors]
        | broken => simp [sameExceptErrors]
      · simp only [hd, Bool.false_eq_true, dite_false]
        exact sameExceptErrors_refl st
    exact sameExceptErrors_trans ihrest h1

/-- C10: `generateDirectoryStructure` leaves every statistics field other
than the `errors` list unchanged: `filesProcessed`, `skippedFiles`,
`totalSize`, `totalLines`, `warnings`, `fileTypes` and `largestFiles` are
identical before and after the walk, however many entries are rendered,
skipped, or fail to stat. -/
theorem generateDirectoryStructure_frame (cfg : ScanConfig) (root : FSNode) (st : Stats) :
    (generateDirectoryStructure cfg root st).2.filesProcessed = st.filesProcessed ∧
    (generateDirectoryStructure cfg root st).2.skippedFiles = st.skippedFiles ∧
    (generateDirectoryStructure cfg root st).2.totalSize = st.totalSize ∧
    (generateDirectoryStructure cfg root st).2.totalLines = st.totalLines ∧
    (generateDirectoryStructure cfg root st).2.warnings = st.warnings ∧
    (generateDirectoryStructure cfg root st).2.fileTypes = st.fileTypes ∧
    (generateDirectoryStructure cfg root st).2.largestFiles = st.largestFiles := by
  cases root with
  | dir cs => exact renderEntries_frame cfg "" [] (sortEntries (validFiles cfg "" cs)) st
  | file size content => simp [generateDirectoryStructure]
  | unreadableDir => simp [generateDirectoryStructure]
  | broken => simp [generateDirectoryStructure]

theorem shouldProcessContent_fst (cfg : ScanConfig) (size : Nat)
    (relativePath filename : String) (st : Stats) :
    (shouldProcessContent cfg size relativePath filename st).1 =
      eligiblePure cfg size relativePath filename := by
  unfold shouldProcessContent eligiblePure
  by_cases h : cfg.maxFileSize < size <;> simp [h]

theorem shouldProcessContent_counters (cfg : ScanConfig) (size : Nat)
    (relativePath filename : String) (st : Stats) :
    (shouldProcessContent cfg size relativePath filename st).2.filesProcessed =
      st.filesProcessed ∧
    (shouldProcessContent cfg size relativePath filename st).2.skippedFiles =
      st.skippedFiles := by
  unfold shouldProcessContent
  by_cases h : cfg.maxFileSize < size <;> simp [h]

theorem processFileEntry_counters (cfg : ScanConfig) (md5 : String → String)
    (relativePath filename : String) (size : Nat) (content : Option String) (st : Stats) :
    (processFileEntry cfg md5 relativePath filename size content st).1.filesProcessed +
      (processFileEntry cfg md5 relativePath filename size content st).1.skippedFiles =
    st.filesProcessed + st.skippedFiles +
      (if eligiblePure cfg size relativePath filename && content.isNone then 0 else 1) := by
  obtain ⟨hc1, hc2⟩ := shouldProcessContent_counters cfg size relativePath filename st
  unfold processFileEntry
  dsimp only
  rw [shouldProcessContent_fst]
  by_cases helig : eligiblePure cfg size relativePath filename
  · simp only [helig, if_true, Bool.true_and]
    cases content with
    | none => simp [hc1, hc2]
    | some text => simp [hc1, hc2]; omega
  · have hf : eligiblePure cfg size relativePath filename = false := by
      simpa using helig
    simp [hf, hc1, hc2]
    omega

theorem processChildren_counters (cfg : ScanConfig) (md5 : String → String)
    (rel : String) (l : List (String × FSNode)) (st : Stats) :
    (processChildren cfg md5 rel l st).1.filesProcessed +
      (processChildren cfg md5 rel l st).1.skippedFiles =
    st.filesProcessed + st.skippedFiles + settledFileCount cfg rel l := by
  induction rel, l, st using processChildren.induct cfg md5 with
  | case1 rel st => simp [processChildren, settledFileCount]
  | case2 rel name node rest st r1 ihdir ihrest =>
    rw [processChildren.eq_def]
    dsimp only
    rw [settledFileCount.eq_def]
    dsimp only
    unfold_let r1 at ihrest
    cases node with
    | broken =>
      dsimp only at ihrest ⊢
      omega
    | dir cs =>
      dsimp only at ihdir
      by_cases hskip : isSkipName cfg name
      · simp [hskip] at ihrest ⊢
        omega
      · simp [hskip] at ihrest ⊢
        omega
    | unreadableDir =>
      by_cases hskip : isSkipName cfg name
      · simp [hskip] at ihrest ⊢
        omega
      · simp [hskip] at ihrest ⊢
        omega
    | file size content =>
      have hf := processFileEntry_counters cfg md5 (joinRel rel name) name size content st
      by_cases hskip : isSkipName cfg name
      · simp [hskip] at ihrest ⊢
        omega
      · simp only [hskip, Bool.false_eq_true, dite_false] at ihrest ⊢
        by_cases hcond :
            (eligiblePure cfg size (joinRel rel name) name && content.isNone) = true
        · simp [hcond] at hf ⊢
          omega
        · simp [hcond] at hf ⊢
          omega

/-- C2 amended: for a run over a scan root, `filesProcessed` plus
`skippedFiles` equals the number of entries that passed their initial stat
check, were not directories, were not the scanner/output skip-names, and
whose processing did not throw (an eligible file whose content read fails
is pushed to `errors` and counted by neither counter). -/
theorem processFiles_counters (cfg : ScanConfig) (md5 : String → String)
    (cs : List (String × FSNode)) (st : Stats) :
    (processFiles cfg md5 (.dir cs) st).1.filesProcessed +
      (processFiles cfg md5 (.dir cs) st).1.skippedFiles =
    st.filesProcessed + st.skippedFiles + settledFileCount cfg "" cs := by
  simpa [processFiles] using processChildren_counters cfg md5 "" cs st

/-- C2 counterexample: a file named `-generate-overview.cjs` passes its
stat check and is not a directory, yet the traversal's skip-name `continue`
means it is neither processed nor skipped, so the claimed equality with the
stat-passing non-directory count fails. -/
theorem processFiles_count_counterexample :
    ¬ ((processFiles
          { projectName := "P", ignoredPaths := [], acceptedExtensions := [".js"],
            maxFileSize := 1000000, includeHashes := false }
          (fun _ => "")
          (.dir [("-generate-overview.cjs", .file 3 (some "abc"))])
          initStats).1.filesProcessed +
        (processFiles
          { projectName := "P", ignoredPaths := [], acceptedExtensions := [".js"],
            maxFileSize := 1000000, includeHashes := false }
          (fun _ => "")
          (.dir [("-generate-overview.cjs", .file 3 (some "abc"))])
          initStats).1.skippedFiles =
        statOkNonDirCount
          { projectName := "P", ignoredPaths := [], acceptedExtensions := [".js"],
            maxFileSize := 1000000, includeHashes := false }
          [("-generate-overview.cjs", .file 3 (some "abc"))]) := by
  simp [processFiles, processChildren, statOkNonDirCount, isSkipName, overviewName, initStats]

/-- C5 counterexample: a stat failure (`broken` entry) during the tree walk
leaves the statistics object entirely unchanged — in particular no entry is
appended to `warnings` — and during the file-processing walk it appends to
`errors`, again leaving `warnings` untouched. -/
theorem statFailure_counterexample :
    (generateDirectoryStructure
        { projectName := "P", ignoredPaths := [], acceptedExtensions := [".js"],
          maxFileSize := 1000000, includeHashes := false }
        (.dir [("bad", .broken)]) initStats).2 = initStats ∧
    (processFiles
        { projectName := "P", ignoredPaths := [], acceptedExtensions := [".js"],
          maxFileSize := 1000000, includeHashes := false }
        (fun _ => "")
        (.dir [("bad", .broken)]) initStats).1.warnings = [] ∧
    (processFiles
        { projectName := "P", ignoredPaths := [], acceptedExtensions := [".js"],
          maxFileSize := 1000000, includeHashes := false }
        (fun _ => "")
        (.dir [("bad", .broken)]) initStats).1.errors = ["Error processing bad"] := by
  refine ⟨?_, ?_, ?_⟩ <;>
    simp [generateDirectoryStructure, renderEntries, validFiles, sortEntries,
      processFiles, processChildren, isSkipName, overviewName, walkerIgnored,
      joinRel, initStats]

/-- C5 amended: a failure to read a directory appends one entry to
`errors` and traversal continues with the siblings; a failure to stat an
entry during the tree walk only drops the entry (console log, statistics —
including `warnings` — unchanged); a failure to stat an entry during file
processing appends one entry to `errors` and processing continues with the
siblings.  No failed entry aborts the walk. -/
theorem traversalErrors_spec :
    (∀ (cfg : ScanConfig) (md5 : String → String) (rel name : String)
        (rest : List (String × FSNode)) (st : Stats),
      processChildren cfg md5 rel ((name, .broken) :: rest) st =
        processChildren cfg md5 rel rest
          { st with errors := st.errors ++ ["Error processing " ++ joinRel rel name] }) ∧
    (∀ (cfg : ScanConfig) (rel name : String) (rest : List (String × FSNode)),
      validFiles cfg rel ((name, .broken) :: rest) = validFiles cfg rel rest) ∧
    (∀ (cfg : ScanConfig) (rel : String) (pfxs : List Bool) (l : List DirEntry) (st : Stats),
      (renderEntries cfg rel pfxs l st).2.warnings = st.warnings) ∧
    (∀ (cfg : ScanConfig) (rel : String) (pfxs : List Bool) (name : String) (sz : Nat)
        (rest : List DirEntry) (st : Stats),
      renderEntries cfg rel pfxs (⟨name, true, sz, .unreadableDir⟩ :: rest) st =
        ((entryLine pfxs rest.isEmpty ⟨name, true, sz, .unreadableDir⟩ ++
            (renderEntries cfg rel pfxs rest
              { st with errors :=
                  st.errors ++ ["Error reading directory " ++ joinRel rel name] }).1),
          (renderEntries cfg rel pfxs rest
            { st with errors :=
                st.errors ++ ["Error reading directory " ++ joinRel rel name] }).2)) := by
  have hemp : ∀ s : String, "" ++ s = s := fun s => rfl
  have hemp2 : ∀ s : String, s ++ "" = s := fun s =>
    String.ext (by simp [String.data_append])
  refine ⟨?_, ?_, ?_, ?_⟩
  · intro cfg md5 rel name rest st
    conv_lhs => rw [processChildren.eq_def]
    dsimp only
    simp [hemp]
  · intro cfg rel name rest
    rw [validFiles.eq_def]
    by_cases h1 : isSkipName cfg name <;>
      by_cases h2 : walkerIgnored cfg.ignoredPaths name (joinRel rel name) <;>
      simp [h1, h2]
  · intro cfg rel pfxs l st
    exact (renderEntries_frame cfg rel pfxs l st).2.2.2.2.1
  · intro cfg rel pfxs name sz rest st
    conv_lhs => rw [renderEntries.eq_def]
    dsimp only
    simp [hemp2]

/-- C8 counterexample: with ignore pattern `a/b`, the entry named `b`
whose relative path is `a/b` is ignored by the content Path Filter (exact
relative-path match) but is not discarded by the directory walker, so it
is rendered in the tree while being excluded from content. -/
theorem walkerContentMismatch_counterexample :
    walkerIgnored ["a/b"] "b" "a/b" = false ∧
    contentIgnored ["a/b"] "a/b" "b" = true := by
  constructor <;> decide

theorem gSearch_cons (p : List Char) (c : Char) (s : List Char) :
    gSearch p s = true → gSearch p (c :: s) = true := by
  intro h
  simp [gSearch, h]

theorem gSearch_append (p pre s : List Char) :
    gSearch p s = true → gSearch p (pre ++ s) = true := by
  induction pre with
  | nil => exact id
  | cons c t ih => exact fun h => gSearch_cons p c (t ++ s) (ih h)

theorem regexTestGlob_append (pat : String) (pre s : String) :
    regexTestGlob pat s = true → regexTestGlob pat (pre ++ s) = true := by
  intro h
  unfold regexTestGlob at *
  rw [String.data_append]
  exact gSearch_append pat.data pre.data s.data h

/-- C8 amended: the walker's discard decision is strictly stronger than
the Path Filter's ignore decision: every entry the walker discards (by
name equality, directory-prefix, or wildcard match on the name or the
relative path) is also classified as ignored by `shouldProcessContent`,
but not conversely — a pattern containing `/` that matches by exact
relative-path equality, or by the contained-directory-segment rule, is
ignored for content yet still rendered in the tree. -/
theorem walkerIgnored_implies_contentIgnored (patterns : List String)
    (pre name : String) :
    walkerIgnored patterns name (pre ++ name) = true →
    contentIgnored patterns (pre ++ name) name = true := by
  intro h
  unfold walkerIgnored at h
  unfold contentIgnored
  rw [List.any_eq_true] at h ⊢
  obtain ⟨p, hp, hm⟩ := h
  refine ⟨p, hp, ?_⟩
  by_cases hs : patHasStar p
  · simp only [hs, if_true] at hm ⊢
    rcases Bool.or_eq_true _ _ |>.mp hm with hname | hrel
    · exact regexTestGlob_append p pre name hname
    · exact hrel
  · simp only [hs, Bool.false_eq_true, if_false] at hm ⊢
    rcases Bool.or_eq_true _ _ |>.mp hm with hname | hpfx
    · simp [hname]
    · simp [hpfx]

/-- Witness for the C8 amended theorem at a concrete input: pattern `ds`,
entry name `ds`, relative path `x/ds`. -/
theorem walkerIgnored_implies_contentIgnored_witness :
    walkerIgnored ["ds"] "ds" ("x/" ++ "ds") = true ∧
    contentIgnored ["ds"] ("x/" ++ "ds") "ds" = true :=
  ⟨by decide, walkerIgnored_implies_contentIgnored ["ds"] "x/" "ds" (by decide)⟩
